import Mathlib

/-!
Verification development for the aztec-safe-recovery repository.

Shallow embedding of the parts of the system the claims are about:
- the Safe owner linked list and the owner-set reconciliation sequence of
  SafeRecoveryModule.applyRecovery (recovery-sol/src/SafeRecoveryModule.sol),
- the replay/authorization guard AztecRecoveryValidator
  (recovery-sol/src/AztecRecoveryValidator.sol),
- the relayer dedup gate and submission retry loop (relayer/relayer.go),
- the payload extraction helpers (PayloadExtractor and the compact path of
  SafeRecoveryModule.verify).

Addresses, byte strings and 32-byte words are modelled as Nat and List Nat.
-/

/-- Value of a byte string read little-endian (first byte is least significant). -/
def leBytesToNat : List Nat → Nat
  | [] => 0
  | b :: bs => b + 256 * leBytesToNat bs

/-- Value of a byte string read big-endian (first byte is most significant). -/
def beBytesToNat (l : List Nat) : Nat :=
  l.foldl (fun acc b => acc * 256 + b) 0

/-- The sub-list of `len` bytes of `data` starting at `offset`. -/
def sliceBytes (data : List Nat) (offset len : Nat) : List Nat :=
  (data.drop offset).take len

/-- Byte number `j` (counting from the least significant) of the natural `u`. -/
def byteAt (u j : Nat) : Nat := u / 2 ^ (8 * j) % 256

/-- Sum of the first `n` values of `f` placed at consecutive byte positions:
`f 0 + f 1 * 2^8 + ... + f (n-1) * 2^(8*(n-1))`. -/
def bytesSum (f : Nat → Nat) : Nat → Nat
  | 0 => 0
  | n + 1 => bytesSum f n + f n * 2 ^ (8 * n)

namespace Safe

/-- Modelled from the spec: the destination Safe itself is not part of this
repository (only the ISafe interface surface is declared in the source).
The spec states the owner storage of the destination account is a mutating
linked list with sentinel address 0x1, owners are added at the head, and
removal takes the current list-predecessor of the removed owner; this is the
Safe v1.4 OwnerManager behaviour the ISafe doc comment points at.
`owners` is the list in traversal order from the sentinel. -/
structure State where
  owners : List Nat
  threshold : Nat
deriving DecidableEq, Repr

/-- The sentinel address 0x1 heading the Safe owner linked list. -/
def SENTINEL : Nat := 1

/-- Revert reasons of the Safe owner-manager operations (Safe v1.4 codes). -/
inductive Err where
  | GS201  -- threshold out of range
  | GS202  -- threshold must be at least 1
  | GS203  -- invalid owner address
  | GS204  -- address is already an owner
  | GS205  -- supplied prevOwner does not point at owner
deriving DecidableEq, Repr

/-- The owner that linked-list node `a` points at, `none` when `a` is not a
node of the list.  The last owner points back at the sentinel. -/
def nextAfter : List Nat → Nat → Option Nat
  | [], _ => none
  | [x], a => if a = x then some SENTINEL else none
  | x :: y :: rest, a => if a = x then some y else nextAfter (y :: rest) a

/-- Lookup in the linked-list storage: what `owners[a]` holds, with the
sentinel pointing at the first owner. -/
def pointee (l : List Nat) (a : Nat) : Option Nat :=
  if a = SENTINEL then l.head? else nextAfter l a

/-- Safe `changeThreshold`: requires `1 <= t <= ownerCount`. -/
def changeThreshold (s : State) (t : Nat) : Except Err State :=
  if s.owners.length < t then .error .GS201
  else if t = 0 then .error .GS202
  else .ok { s with threshold := t }

/-- Safe `addOwnerWithThreshold`: the new owner is linked in at the head of
the list, then the threshold is updated when it differs. -/
def addOwnerWithThreshold (s : State) (o t : Nat) : Except Err State :=
  if o = 0 ∨ o = SENTINEL then .error .GS203
  else if o ∈ s.owners then .error .GS204
  else
    let s1 : State := ⟨o :: s.owners, s.threshold⟩
    if s1.threshold ≠ t then changeThreshold s1 t else .ok s1

/-- Safe `removeOwner prev o t`: requires the remaining owner count to carry
the threshold, a valid owner address, and that `owners[prev] = o` in the
current linked list; unlinking `o` then splices `prev` to the successor of
`o`, and the threshold is updated when it differs. -/
def removeOwner (s : State) (prev o t : Nat) : Except Err State :=
  if s.owners.length - 1 < t then .error .GS201
  else if o = 0 ∨ o = SENTINEL then .error .GS203
  else if pointee s.owners prev ≠ some o then .error .GS205
  else
    let s1 : State := ⟨s.owners.erase o, s.threshold⟩
    if s1.threshold ≠ t then changeThreshold s1 t else .ok s1

end Safe

namespace AztecRecoveryValidator

/-- The decoded VAA payload tuple
`(version, chainId, safe, owners, threshold, nonce, expiry)` of
AztecRecoveryValidator.validate (abi.decode at line 97-105). -/
structure Payload where
  version : Nat
  chainId : Nat
  safe : Nat
  owners : List Nat
  threshold : Nat
  nonce : Nat
  expiry : Nat
deriving DecidableEq, Repr

/-- Outcome of the wormhole.parseAndVerifyVM call followed by abi.decode:
the VAA can fail signature verification, its payload can fail to decode,
or it decodes to a payload tuple. -/
inductive Vaa where
  | invalid
  | undecodable
  | decoded (p : Payload)
deriving DecidableEq, Repr

/-- Custom errors of AztecRecoveryValidator (lines 27-39), plus the plain
revert raised by abi.decode on a malformed payload. -/
inductive Err where
  | NotOwner
  | ValidatorPaused
  | InvalidVAA
  | AbiDecodeRevert
  | BadVersion
  | WrongChain
  | Expired
  | NonceAlreadyConsumed
  | BadSelector
  | SafeMismatch
  | ThresholdMismatch
  | NonceMismatch
  | OwnersMismatch
  | NotAuthorizedModule
deriving DecidableEq, Repr

/-- Contract storage of AztecRecoveryValidator: admin owner, pause flag,
the authorized-caller list and the consumed-nonce set (lines 13-21). -/
structure State where
  owner : Nat
  paused : Bool
  authorizedModules : Nat → Bool
  consumed : Nat → Bool

/-- EVM call context: runtime chain id, block timestamp, and the caller. -/
structure Ctx where
  chainid : Nat
  timestamp : Nat
  msgSender : Nat

/-- Abstract token standing for
bytes4(keccak256("applyRecovery(address,address[],uint256,bytes32,bytes)"));
only equality with itself is ever used. -/
def applyRecoverySelector : Nat := 1

/-- EIP-1271 magic value 0x1626ba7e returned on success. -/
def MAGICVALUE : Nat := 0x1626ba7e

/-- Decoded view of the calldata handed to validate: the 4-byte selector and
the abi-decoded `(safe, owners, threshold, nonce, _)` tuple of the rest. -/
structure CallData where
  selector : Nat
  safe : Nat
  owners : List Nat
  threshold : Nat
  nonce : Nat
deriving DecidableEq, Repr

/-- `_validateCallData` (lines 135-157): field-by-field comparison of the
call arguments against the decoded intent, in source order. The element-wise
owner loop is collapsed to list equality, which raises the same single
`OwnersMismatch` error. -/
def validateCallData (cd : CallData) (expectedSafe : Nat) (expectedOwners : List Nat)
    (expectedThreshold expectedNonce : Nat) : Except Err Unit :=
  if cd.safe ≠ expectedSafe then .error .SafeMismatch
  else if cd.threshold ≠ expectedThreshold then .error .ThresholdMismatch
  else if cd.nonce ≠ expectedNonce then .error .NonceMismatch
  else if expectedOwners.length ≠ cd.owners.length then .error .OwnersMismatch
  else if expectedOwners ≠ cd.owners then .error .OwnersMismatch
  else .ok ()

/-- `validate` (lines 88-126): pause gate, authorized-caller gate, VAA
verification, payload decode, then the version, chain, expiry, nonce,
selector and literal-argument checks, in source order.  A view function:
it never writes storage. -/
def validate (st : State) (ctx : Ctx) (callData : CallData) (vaa : Vaa) :
    Except Err Nat :=
  if st.paused then .error .ValidatorPaused
  else if !(st.authorizedModules ctx.msgSender) then .error .NotAuthorizedModule
  else
    match vaa with
    | .invalid => .error .InvalidVAA
    | .undecodable => .error .AbiDecodeRevert
    | .decoded p =>
      if p.version ≠ 1 then .error .BadVersion
      else if p.chainId ≠ ctx.chainid then .error .WrongChain
      else if p.expiry < ctx.timestamp then .error .Expired
      else if st.consumed p.nonce then .error .NonceAlreadyConsumed
      else if callData.selector ≠ applyRecoverySelector then .error .BadSelector
      else
        match validateCallData callData p.safe p.owners p.threshold p.nonce with
        | .error e => .error e
        | .ok _ => .ok MAGICVALUE

/-- `markConsumed` (lines 129-133): only an authorized module may mark, and
marking sets the consumed flag of the nonce. -/
def markConsumed (st : State) (caller nonce : Nat) : Except Err State :=
  if st.authorizedModules caller then
    .ok { st with consumed := fun x => if x = nonce then true else st.consumed x }
  else .error .NotAuthorizedModule

/-- The externally callable state-changing operations of
AztecRecoveryValidator (validate is a view function and is not one). -/
inductive Op where
  | setOwner (caller a : Nat)
  | setPaused (caller : Nat) (v : Bool)
  | setModuleAuthorized (caller m : Nat) (b : Bool)
  | onInstall (data : List Nat)
  | onUninstall (data : List Nat)
  | markConsumed (caller n : Nat)

/-- Transaction-level semantics of one operation: a failed require/guard
reverts and leaves storage unchanged. -/
def step (st : State) : Op → State
  | .setOwner caller a =>
    if caller = st.owner then { st with owner := a } else st
  | .setPaused caller v =>
    if caller = st.owner then { st with paused := v } else st
  | .setModuleAuthorized caller m b =>
    if caller = st.owner then
      { st with authorizedModules := fun x => if x = m then b else st.authorizedModules x }
    else st
  | .onInstall data =>
    if 20 ≤ data.length then
      let m := beBytesToNat (data.take 20)
      { st with authorizedModules := fun x => if x = m then true else st.authorizedModules x }
    else st
  | .onUninstall _ => st
  | .markConsumed caller n =>
    match markConsumed st caller n with
    | .ok st1 => st1
    | .error _ => st

end AztecRecoveryValidator

namespace SafeRecoveryModule

/-- One sub-call the module issues against the Safe through
`execTransactionFromModuleReturnData`. -/
inductive SafeCall where
  | add (o t : Nat)                -- ISafe.addOwnerWithThreshold(o, t)
  | remove (prev o t : Nat)        -- ISafe.removeOwner(prev, o, t)
  | setThreshold (t : Nat)         -- ISafe.changeThreshold(t)
deriving DecidableEq, Repr

/-- Custom errors of SafeRecoveryModule (lines 31-37). -/
inductive Err where
  | ModulePaused
  | ValidationFailed
  | SafeCallFailed
  | ConsumeNonceFailed
  | ValidationRevert (e : AztecRecoveryValidator.Err)
deriving DecidableEq, Repr

/-- Dispatch of one issued sub-call to the Safe owner manager. -/
def execSafeCall (s : Safe.State) : SafeCall → Except Safe.Err Safe.State
  | .add o t => Safe.addOwnerWithThreshold s o t
  | .remove prev o t => Safe.removeOwner s prev o t
  | .setThreshold t => Safe.changeThreshold s t

/-- `_moduleCall` (lines 137-140): run the sub-call through the Safe; any
failure of the sub-call reverts the module with `SafeCallFailed`. -/
def moduleCall (s : Safe.State) (c : SafeCall) : Except Err Safe.State :=
  match execSafeCall s c with
  | .ok s1 => .ok s1
  | .error _ => .error .SafeCallFailed

/-- The `keep` array of applyRecovery step 3 (lines 98-108): for each entry
of `newOwners`, the first index of `current` holding it is marked kept. -/
def markKeep (current newOwners : List Nat) : List Bool :=
  newOwners.foldl
    (fun keep o =>
      match current.findIdx? (fun c => c = o) with
      | some j => keep.set j true
      | none => keep)
    (List.replicate current.length false)

/-- applyRecovery step 3 (lines 99-114): walk `newOwners` in order and, for
each owner absent from the `current` snapshot, issue an add carrying the
live threshold `safe.getThreshold()`.  Returns the issued calls and either
the Safe state after them or the first failure. -/
def addPhase (s : Safe.State) (current : List Nat) :
    List Nat → List SafeCall × Except Err Safe.State
  | [] => ([], .ok s)
  | o :: rest =>
    if o ∈ current then addPhase s current rest
    else
      let c := SafeCall.add o s.threshold
      match moduleCall s c with
      | .error e => ([c], .error e)
      | .ok s1 =>
        let (cs, r) := addPhase s1 current rest
        (c :: cs, r)

/-- applyRecovery step 4 (lines 116-125): walk the `current` snapshot with
its `keep` marks; for each owner not kept, issue a removal whose supplied
predecessor is the sentinel for index 0 and `current[j-1]` otherwise — the
element of the pre-recovery snapshot, not of the mutated list.  The first
argument threads the snapshot predecessor. -/
def removePhase (s : Safe.State) :
    Nat → List (Nat × Bool) → List SafeCall × Except Err Safe.State
  | _, [] => ([], .ok s)
  | prev, (o, kept) :: rest =>
    if kept then removePhase s o rest
    else
      let c := SafeCall.remove prev o s.threshold
      match moduleCall s c with
      | .error e => ([c], .error e)
      | .ok s1 =>
        let (cs, r) := removePhase s1 o rest
        (c :: cs, r)

/-- applyRecovery steps 2-5 (lines 92-128): snapshot the owners, add the
missing target owners, remove the owners not kept, then set the final
threshold.  Returns the sub-calls issued (up to and including a failing
one) together with the resulting Safe state or the first failure. -/
def reconcile (s0 : Safe.State) (newOwners : List Nat) (newThreshold : Nat) :
    List SafeCall × Except Err Safe.State :=
  let current := s0.owners
  let (cs1, r1) := addPhase s0 current newOwners
  match r1 with
  | .error e => (cs1, .error e)
  | .ok s1 =>
    let (cs2, r2) := removePhase s1 Safe.SENTINEL (current.zip (markKeep current newOwners))
    match r2 with
    | .error e => (cs1 ++ cs2, .error e)
    | .ok s2 =>
      let c := SafeCall.setThreshold newThreshold
      match moduleCall s2 c with
      | .error e => (cs1 ++ cs2 ++ [c], .error e)
      | .ok s3 => (cs1 ++ cs2 ++ [c], .ok s3)

/-- Run a given list of sub-calls through `_moduleCall` in order. -/
def execCalls (s : Safe.State) : List SafeCall → Except Err Safe.State
  | [] => .ok s
  | c :: cs =>
    match moduleCall s c with
    | .error e => .error e
    | .ok s1 => execCalls s1 cs

/-- The combined on-chain state applyRecovery touches: the validator
storage and the target Safe. -/
structure World where
  validator : AztecRecoveryValidator.State
  safe : Safe.State

/-- The arguments of applyRecovery(targetSafe, newOwners, newThreshold,
nonce, vaa) apart from the raw VAA bytes. -/
structure RecoveryArgs where
  targetSafe : Nat
  newOwners : List Nat
  newThreshold : Nat
  nonce : Nat
deriving DecidableEq, Repr

/-- Decoded view of the calldata applyRecovery re-encodes for the validator
(line 87-89): its own selector and its own literal arguments. -/
def callDataOf (args : RecoveryArgs) : AztecRecoveryValidator.CallData :=
  ⟨AztecRecoveryValidator.applyRecoverySelector, args.targetSafe,
    args.newOwners, args.newThreshold, args.nonce⟩

/-- `applyRecovery` (lines 77-135): pause gate, validation of this exact
call against the VAA, the reconciliation sequence, and finally the
markConsumed call on the validator.  Returns the Safe sub-calls issued and
either the new combined state or the revert error; a revert rolls the whole
transaction back (see `applyRecoveryTx`). -/
def applyRecovery (modulePaused : Bool) (moduleAddr chainid timestamp : Nat)
    (w : World) (args : RecoveryArgs) (vaa : AztecRecoveryValidator.Vaa) :
    List SafeCall × Except Err World :=
  if modulePaused then ([], .error .ModulePaused)
  else
    match AztecRecoveryValidator.validate w.validator
        ⟨chainid, timestamp, moduleAddr⟩ (callDataOf args) vaa with
    | .error e => ([], .error (.ValidationRevert e))
    | .ok m =>
      if m ≠ AztecRecoveryValidator.MAGICVALUE then ([], .error .ValidationFailed)
      else
        let (cs, r) := reconcile w.safe args.newOwners args.newThreshold
        match r with
        | .error e => (cs, .error e)
        | .ok s2 =>
          match AztecRecoveryValidator.markConsumed w.validator moduleAddr args.nonce with
          | .error _ => (cs, .error .ConsumeNonceFailed)
          | .ok v2 => (cs, .ok ⟨v2, s2⟩)

/-- EVM transaction semantics of applyRecovery: a revert leaves every piece
of storage exactly as before the call. -/
def applyRecoveryTx (modulePaused : Bool) (moduleAddr chainid timestamp : Nat)
    (w : World) (args : RecoveryArgs) (vaa : AztecRecoveryValidator.Vaa) : World :=
  match (applyRecovery modulePaused moduleAddr chainid timestamp w args vaa).2 with
  | .ok w2 => w2
  | .error _ => w

/-- `_extractAddressLE` (lines 200-206): assemble a uint160 from 20 payload
bytes, least-significant byte first. -/
def extractAddressLE (data : List Nat) (offset : Nat) : Nat :=
  (List.range 20).foldl
    (fun addr i => addr ||| ((data.getD (offset + i) 0) <<< (8 * i))) 0

/-- `_extractChainIdLE` (lines 212-218): assemble up to 3 payload bytes,
least-significant first, stopping at the end of the payload. -/
def extractChainIdLE (data : List Nat) (offset : Nat) : Nat :=
  (List.range 3).foldl
    (fun value i =>
      if offset + i < data.length then value ||| ((data.getD (offset + i) 0) <<< (8 * i))
      else value) 0

/-- The fields `verify` (lines 145-172) computes from the compact payload. -/
structure VerifyParsed where
  safeAddress : Nat
  candidate : Nat
  chainId : Nat
deriving DecidableEq, Repr

/-- The decoding part of `verify` (lines 157-167): the length gate
`require(payload.length >= 116)` followed by the three fixed-offset
extractions (safe at 55, candidate at 96, chain id at 52). -/
def verifyExtract (payload : List Nat) : Except String VerifyParsed :=
  if payload.length < 116 then .error "payload too short"
  else .ok ⟨extractAddressLE payload 55, extractAddressLE payload 96,
    extractChainIdLE payload 52⟩

end SafeRecoveryModule

namespace Relayer

/-- The mutex-guarded dedup unit of the relayer (relayer.go lines 384-387):
the in-flight set, the success cache mapping a key to the time of its last
successful completion, and the TTL.  Keys and times are Nat. -/
structure DedupState where
  inflight : Nat → Bool
  processed : Nat → Option Nat
  ttl : Nat

/-- The shared tail of beginProcessingVAA (lines 783-788): admit and mark
in-flight unless the key is already in flight. -/
def tryMarkInflight (st : DedupState) (key : Nat) : Bool × DedupState :=
  if st.inflight key then (false, st)
  else (true, { st with inflight := fun k => if k = key then true else st.inflight k })

/-- `beginProcessingVAA` (lines 772-789): under the dedup mutex, reject a
key with a success record younger than the TTL; delete a stale record; then
check-and-mark the in-flight set in the same critical section. -/
def beginProcessingVAA (st : DedupState) (now key : Nat) : Bool × DedupState :=
  match st.processed key with
  | some ts =>
    if now - ts < st.ttl then (false, st)
    else tryMarkInflight
      { st with processed := fun k => if k = key then none else st.processed k } key
  | none => tryMarkInflight st key

/-- `finishProcessingVAA` (lines 791-807): under the dedup mutex, clear the
in-flight mark, record the completion time only on success, and prune
success records older than the TTL. -/
def finishProcessingVAA (st : DedupState) (now key : Nat) (success : Bool) :
    DedupState :=
  let st1 : DedupState :=
    { st with inflight := fun k => if k = key then false else st.inflight k }
  let st2 : DedupState :=
    if success then
      { st1 with processed := fun k => if k = key then some now else st1.processed k }
    else st1
  { st2 with processed := fun k =>
      match st2.processed k with
      | some ts => if ts < now - st.ttl then none else some ts
      | none => none }

/-- Classification of the SendTransaction response (lines 350-365): accepted,
a nonce-related error that warrants a retry, or any other error. -/
inductive SendOutcome where
  | accepted
  | nonceConflict
  | failed
deriving DecidableEq, Repr

/-- What the chain RPC yields at one submission attempt: the confirmed and
pending transaction counters, the suggested gas price (none = RPC error),
and how the chain answers the submission. -/
structure AttemptEnv where
  confirmedNonce : Option Nat
  pendingNonce : Option Nat
  suggestedGasPrice : Option Nat
  sendResult : SendOutcome

/-- `getFreshNonce` (lines 244-269): read the confirmed and pending
counters and use the higher of the two; an RPC failure aborts. -/
def getFreshNonce (e : AttemptEnv) : Option Nat :=
  match e.confirmedNonce, e.pendingNonce with
  | some confirmed, some pending =>
    some (if confirmed < pending then pending else confirmed)
  | _, _ => none

/-- Final outcome of SendVerifyTransaction. -/
inductive SvtResult where
  | sent (attempt nonce gasPrice : Nat)
  | rpcError
  | sendFailed
  | retriesExhausted
deriving DecidableEq, Repr

/-- The retry loop of `SendVerifyTransaction` (lines 306-374): per attempt,
fetch a fresh nonce and a fresh gas price suggestion, bump the suggestion by
20 percent on retries only, submit, and retry solely on a nonce conflict.
Returns the `(attempt, nonce, gasPrice)` log of the executed attempts and
the final outcome; exhausting the bound is the hard failure of line 374. -/
def svtGo (envs : Nat → AttemptEnv) : Nat → Nat → List (Nat × Nat × Nat) × SvtResult
  | _, 0 => ([], .retriesExhausted)
  | attempt, fuel + 1 =>
    let e := envs attempt
    match getFreshNonce e with
    | none => ([], .rpcError)
    | some nonce =>
      match e.suggestedGasPrice with
      | none => ([], .rpcError)
      | some suggested =>
        let gasPrice := if 0 < attempt then suggested + suggested / 5 else suggested
        match e.sendResult with
        | .accepted => ([(attempt, nonce, gasPrice)], .sent attempt nonce gasPrice)
        | .failed => ([(attempt, nonce, gasPrice)], .sendFailed)
        | .nonceConflict =>
          let (l, r) := svtGo envs (attempt + 1) fuel
          ((attempt, nonce, gasPrice) :: l, r)

/-- `maxRetries = 3` (line 307). -/
def maxRetries : Nat := 3

/-- `SendVerifyTransaction` with the submission serialized behind the nonce
mutex: the loop starting at attempt 0 with the retry bound. -/
def sendVerifyTransaction (envs : Nat → AttemptEnv) :
    List (Nat × Nat × Nat) × SvtResult :=
  svtGo envs 0 maxRetries

end Relayer

namespace PayloadExtractor

/-- `reverseBytes20` (part_007 lines 141-155): for each byte position i,
take byte i of the bytes20 input — bytes1(input << 8*i), the top byte of
the shifted 20-byte value — and or it into the uint160 accumulator at bit
position 8*i. -/
def reverseBytes20 (input : Nat) : Nat :=
  (List.range 20).foldl
    (fun reversed i =>
      reversed ||| ((((input <<< (8 * i)) % 2 ^ 160) >>> 152) <<< (8 * i))) 0

/-- `reverseBytes20Assembly` (part_007 lines 160-229): the inline-assembly
variant.  In Yul a bytes20 local is left-aligned in its 256-bit word, so
`temp := input` holds the 20 input bytes in the high bytes of the word; the
or-chain of the source is flattened here, with shr amounts 0,8,...,152 and
shl amounts 152,144,...,0 exactly as written. -/
def reverseBytes20Assembly (input : Nat) : Nat :=
  let temp := input <<< 96
  ((temp &&& 0xff) <<< 152) |||
  (((temp >>> 8) &&& 0xff) <<< 144) |||
  (((temp >>> 16) &&& 0xff) <<< 136) |||
  (((temp >>> 24) &&& 0xff) <<< 128) |||
  (((temp >>> 32) &&& 0xff) <<< 120) |||
  (((temp >>> 40) &&& 0xff) <<< 112) |||
  (((temp >>> 48) &&& 0xff) <<< 104) |||
  (((temp >>> 56) &&& 0xff) <<< 96) |||
  (((temp >>> 64) &&& 0xff) <<< 88) |||
  (((temp >>> 72) &&& 0xff) <<< 80) |||
  (((temp >>> 80) &&& 0xff) <<< 72) |||
  (((temp >>> 88) &&& 0xff) <<< 64) |||
  (((temp >>> 96) &&& 0xff) <<< 56) |||
  (((temp >>> 104) &&& 0xff) <<< 48) |||
  (((temp >>> 112) &&& 0xff) <<< 40) |||
  (((temp >>> 120) &&& 0xff) <<< 32) |||
  (((temp >>> 128) &&& 0xff) <<< 24) |||
  (((temp >>> 136) &&& 0xff) <<< 16) |||
  (((temp >>> 144) &&& 0xff) <<< 8) |||
  ((temp >>> 152) &&& 0xff)

/-- The parsed-payload struct of PayloadExtractor (part_007 lines 7-13). -/
structure ParsedPayload where
  txId : Nat
  addressField5 : Nat
  chainId : Nat
  amount : Nat
  addressField7 : Nat
deriving DecidableEq, Repr

/-- `extractAndReverseAddress` (part_007 lines 90-113): length gate, copy 20
bytes into a bytes20 (big-endian value of the slice), then reverse them. -/
def extractAndReverseAddress (payload : List Nat) (offset : Nat) :
    Except String Nat :=
  if payload.length < offset + 20 then .error "Insufficient bytes for address"
  else .ok (reverseBytes20 (beBytesToNat (sliceBytes payload offset 20)))

/-- `extractAndReverseUint16` (part_007 lines 121-134): length gate, then
swap the two bytes at the offset. -/
def extractAndReverseUint16 (payload : List Nat) (offset : Nat) :
    Except String Nat :=
  if payload.length < offset + 2 then .error "Insufficient bytes for uint16"
  else .ok (((payload.getD (offset + 1) 0) <<< 8) ||| payload.getD offset 0)

/-- `parsePayload` (part_007 lines 27-54): the length gate
`require(payload.length >= 75)` runs before any field is extracted;
then txId (verbatim first 32 bytes), address field 5 at offset 32, the
2-byte chain id at 52, the amount byte at 54, and address field 7 at 55. -/
def parsePayload (payload : List Nat) : Except String ParsedPayload :=
  if payload.length < 75 then .error "Payload too short"
  else
    match extractAndReverseAddress payload 32 with
    | .error e => .error e
    | .ok addressField5 =>
      match extractAndReverseUint16 payload 52 with
      | .error e => .error e
      | .ok chainId =>
        match extractAndReverseAddress payload 55 with
        | .error e => .error e
        | .ok addressField7 =>
          .ok ⟨beBytesToNat (sliceBytes payload 0 32), addressField5, chainId,
            payload.getD 54 0, addressField7⟩

end PayloadExtractor

/-! Concrete sample data used by counterexamples and witnesses. -/

/-- A validator state authorizing module address 77, nothing consumed. -/
def vAuth77 : AztecRecoveryValidator.State :=
  ⟨1, false, fun a => a == 77, fun _ => false⟩

/-- A validator state authorizing nobody, with every nonce consumed. -/
def vNobody : AztecRecoveryValidator.State :=
  ⟨1, false, fun _ => false, fun _ => true⟩

/-- A validator state authorizing module 77, with nonce 99 consumed. -/
def vConsumed99 : AztecRecoveryValidator.State :=
  ⟨1, false, fun a => a == 77, fun x => x == 99⟩

/-- A combined state: validator `vAuth77` and a Safe owned by [10,11,12]
with threshold 2. -/
def world0 : SafeRecoveryModule.World := ⟨vAuth77, ⟨[10, 11, 12], 2⟩⟩

/-- Intent adding owner 13 while keeping [10,11,12], threshold 2, nonce 99. -/
def payloadKeep : AztecRecoveryValidator.Payload :=
  ⟨1, 31337, 500, [10, 11, 12, 13], 2, 99, 1000⟩

/-- The call arguments matching `payloadKeep`. -/
def argsKeep : SafeRecoveryModule.RecoveryArgs := ⟨500, [10, 11, 12, 13], 2, 99⟩

/-- Intent shrinking the owner set to [10,13] with threshold 1, nonce 99:
the spec example current [A,B,C], target [A,D]. -/
def payloadShrink : AztecRecoveryValidator.Payload :=
  ⟨1, 31337, 500, [10, 13], 1, 99, 1000⟩

/-- The call arguments matching `payloadShrink`. -/
def argsShrink : SafeRecoveryModule.RecoveryArgs := ⟨500, [10, 13], 1, 99⟩

/-- A submission schedule whose suggested gas price drops from 100 to 50
after the first nonce conflict. -/
def envsFeeDrop : Nat → Relayer.AttemptEnv := fun a =>
  match a with
  | 0 => ⟨some 5, some 7, some 100, .nonceConflict⟩
  | 1 => ⟨some 5, some 8, some 50, .nonceConflict⟩
  | _ => ⟨some 5, some 9, some 50, .accepted⟩

/-- A submission schedule answering every attempt with a nonce conflict. -/
def envsAllConflict : Nat → Relayer.AttemptEnv :=
  fun _ => ⟨some 2, some 3, some 10, .nonceConflict⟩

/-- A 116-byte sample payload. -/
def payload116 : List Nat := (List.range 116).map (fun i => (i * 7) % 256)

/-! ## Theorems -/

/-- Claim C1: for a Safe with owners [A,B,C] = [10,11,12] and a valid
intent targeting [A,D] = [10,13] with threshold 1, applyRecovery issues one
add (D, at the head of the linked list) and then the removal of B with
predecessor A, but it issues the removal of C with predecessor B taken from
the pre-recovery snapshot — B has just been removed, so the sub-call fails
and the whole recovery reverts with SafeCallFailed.  The linked-list
predecessor of C at that point is A, and the sequence the claim describes
(predecessor recomputed after each prior removal) runs to completion with
owners [D,A] and threshold 1. -/
theorem c1_stale_predecessor_failure :
    SafeRecoveryModule.reconcile ⟨[10, 11, 12], 2⟩ [10, 13] 1 =
      ([.add 13 2, .remove 10 11 2, .remove 11 12 2], .error .SafeCallFailed) ∧
    SafeRecoveryModule.execCalls ⟨[10, 11, 12], 2⟩
      [.add 13 2, .remove 10 11 2] = .ok ⟨[13, 10, 12], 2⟩ ∧
    Safe.pointee [13, 10, 12] 10 = some 12 ∧
    SafeRecoveryModule.execCalls ⟨[10, 11, 12], 2⟩
      [.add 13 2, .remove 10 11 2, .remove 10 12 2, .setThreshold 1] =
      .ok ⟨[13, 10], 1⟩ :=
  ⟨rfl, rfl, rfl, rfl⟩

/-- Claim C2: once a nonce is consumed, no sequence of validator operations
resets it, and a validate call presenting that nonce is rejected with
NonceAlreadyConsumed — whatever owners and threshold the new attempt
carries — whenever the guards ahead of the nonce check pass. -/
theorem c2_consumed_is_permanent
    (st : AztecRecoveryValidator.State) (n : Nat) (hc : st.consumed n = true) :
    (∀ ops : List AztecRecoveryValidator.Op,
       (ops.foldl AztecRecoveryValidator.step st).consumed n = true) ∧
    (∀ (ctx : AztecRecoveryValidator.Ctx) (cd : AztecRecoveryValidator.CallData)
       (p : AztecRecoveryValidator.Payload),
       st.paused = false →
       st.authorizedModules ctx.msgSender = true →
       p.version = 1 →
       p.chainId = ctx.chainid →
       ctx.timestamp ≤ p.expiry →
       p.nonce = n →
       AztecRecoveryValidator.validate st ctx cd (.decoded p) =
         .error .NonceAlreadyConsumed) := by
  constructor
  · intro ops
    induction ops generalizing st with
    | nil => exact hc
    | cons op rest ih =>
      rw [List.foldl_cons]
      refine ih _ ?_
      cases op with
      | setOwner caller a =>
        simp only [AztecRecoveryValidator.step]; split <;> simpa using hc
      | setPaused caller v =>
        simp only [AztecRecoveryValidator.step]; split <;> simpa using hc
      | setModuleAuthorized caller m b =>
        simp only [AztecRecoveryValidator.step]; split <;> simpa using hc
      | onInstall data =>
        simp only [AztecRecoveryValidator.step]; split <;> simpa using hc
      | onUninstall data =>
        simpa [AztecRecoveryValidator.step] using hc
      | markConsumed caller n0 =>
        simp only [AztecRecoveryValidator.step, AztecRecoveryValidator.markConsumed]
        by_cases hau : st.authorizedModules caller = true
        · simp only [hau, if_true]
          by_cases h : n = n0 <;> simp [h, hc]
        · simp only [hau]
          simpa using hc
  · intro ctx cd p hpause hauth hv hchain hexp hn
    simp [AztecRecoveryValidator.validate, hpause, hauth, hv, hchain,
      Nat.not_lt.mpr hexp, hn, hc]

/-- Witness for C2 at a concrete consumed state and a differing new
owner set and threshold. -/
theorem c2_consumed_is_permanent_witness :
    (([AztecRecoveryValidator.Op.setPaused 1 false,
       AztecRecoveryValidator.Op.setModuleAuthorized 1 77 false,
       AztecRecoveryValidator.Op.onUninstall []].foldl
        AztecRecoveryValidator.step vConsumed99).consumed 99 = true) ∧
    AztecRecoveryValidator.validate vConsumed99 ⟨31337, 100, 77⟩
      ⟨AztecRecoveryValidator.applyRecoverySelector, 500, [55, 66], 3, 99⟩
      (.decoded ⟨1, 31337, 500, [55, 66], 3, 99, 1000⟩) =
      .error .NonceAlreadyConsumed :=
  ⟨(c2_consumed_is_permanent vConsumed99 99 rfl).1 _,
   (c2_consumed_is_permanent vConsumed99 99 rfl).2 ⟨31337, 100, 77⟩ _ _
     rfl rfl rfl rfl (by decide) rfl⟩

/-- Counterexample to claim C3: with the calling module not on the
authorized-caller list and the nonce already consumed — version, chain and
expiry all in order — validate returns NotAuthorizedModule, while in the
claimed check order the first failing check would be the nonce check and
the returned error NonceAlreadyConsumed. -/
theorem c3_guard_order_counterexample :
    vNobody.paused = false ∧
    payloadKeep.version = 1 ∧
    payloadKeep.chainId = 31337 ∧
    100 ≤ payloadKeep.expiry ∧
    vNobody.consumed payloadKeep.nonce = true ∧
    vNobody.authorizedModules 77 = false ∧
    AztecRecoveryValidator.validate vNobody ⟨31337, 100, 77⟩
      (SafeRecoveryModule.callDataOf argsKeep) (.decoded payloadKeep) =
      .error .NotAuthorizedModule ∧
    AztecRecoveryValidator.Err.NotAuthorizedModule ≠
      AztecRecoveryValidator.Err.NonceAlreadyConsumed :=
  ⟨rfl, rfl, rfl, by decide, rfl, rfl, rfl, by decide⟩

/-- Claim C3 (amended): in validate the authorized-caller check runs first
(after the pause gate and VAA verification); then come, in order, the
version, chain, expiry and nonce checks, then the selector check, and last
the literal-argument comparison; the error of the first failing check is
returned, and with every guard passed the call succeeds exactly when the
literal arguments equal the decoded intent fields. -/
theorem c3_guard_order_amended
    (st : AztecRecoveryValidator.State) (ctx : AztecRecoveryValidator.Ctx)
    (cd : AztecRecoveryValidator.CallData) (p : AztecRecoveryValidator.Payload)
    (hpause : st.paused = false) :
    (st.authorizedModules ctx.msgSender = false →
       AztecRecoveryValidator.validate st ctx cd (.decoded p) =
         .error .NotAuthorizedModule) ∧
    (st.authorizedModules ctx.msgSender = true → p.version ≠ 1 →
       AztecRecoveryValidator.validate st ctx cd (.decoded p) =
         .error .BadVersion) ∧
    (st.authorizedModules ctx.msgSender = true → p.version = 1 →
       p.chainId ≠ ctx.chainid →
       AztecRecoveryValidator.validate st ctx cd (.decoded p) =
         .error .WrongChain) ∧
    (st.authorizedModules ctx.msgSender = true → p.version = 1 →
       p.chainId = ctx.chainid → p.expiry < ctx.timestamp →
       AztecRecoveryValidator.validate st ctx cd (.decoded p) =
         .error .Expired) ∧
    (st.authorizedModules ctx.msgSender = true → p.version = 1 →
       p.chainId = ctx.chainid → ctx.timestamp ≤ p.expiry →
       st.consumed p.nonce = true →
       AztecRecoveryValidator.validate st ctx cd (.decoded p) =
         .error .NonceAlreadyConsumed) ∧
    (st.authorizedModules ctx.msgSender = true → p.version = 1 →
       p.chainId = ctx.chainid → ctx.timestamp ≤ p.expiry →
       st.consumed p.nonce = false →
       cd.selector = AztecRecoveryValidator.applyRecoverySelector →
       (AztecRecoveryValidator.validate st ctx cd (.decoded p) =
          .ok AztecRecoveryValidator.MAGICVALUE ↔
        cd.safe = p.safe ∧ cd.threshold = p.threshold ∧ cd.nonce = p.nonce ∧
          cd.owners = p.owners)) := by
  refine ⟨fun hne => ?_, fun ha hv => ?_, fun ha hv hch => ?_,
    fun ha hv hch hexp => ?_, fun ha hv hch hexp hcons => ?_,
    fun ha hv hch hexp hcons hsel => ?_⟩
  · simp [AztecRecoveryValidator.validate, hpause, hne]
  · simp [AztecRecoveryValidator.validate, hpause, ha, hv]
  · simp [AztecRecoveryValidator.validate, hpause, ha, hv, hch]
  · simp [AztecRecoveryValidator.validate, hpause, ha, hv, hch, hexp]
  · simp [AztecRecoveryValidator.validate, hpause, ha, hv, hch,
      Nat.not_lt.mpr hexp, hcons]
  · simp only [AztecRecoveryValidator.validate, AztecRecoveryValidator.validateCallData,
      hpause, ha, hv, hch, Nat.not_lt.mpr hexp, hcons, hsel]
    constructor
    · intro h
      by_cases h1 : cd.safe = p.safe
      · by_cases h2 : cd.threshold = p.threshold
        · by_cases h3 : cd.nonce = p.nonce
          · by_cases h4 : p.owners = cd.owners
            · exact ⟨h1, h2, h3, h4.symm⟩
            · by_cases h5 : p.owners.length = cd.owners.length <;>
                simp [h1, h2, h3, h4, h5] at h
          · simp [h1, h2, h3] at h
        · simp [h1, h2] at h
      · simp [h1] at h
    · rintro ⟨h1, h2, h3, h4⟩
      simp [h1, h2, h3, h4]

/-- Witness for C3 (amended): the authorized-caller failure at a concrete
unauthorized caller with a consumed nonce. -/
theorem c3_guard_order_amended_witness :
    AztecRecoveryValidator.validate vNobody ⟨31337, 200, 78⟩
      (SafeRecoveryModule.callDataOf argsKeep) (.decoded payloadKeep) =
      .error .NotAuthorizedModule :=
  (c3_guard_order_amended vNobody ⟨31337, 200, 78⟩
    (SafeRecoveryModule.callDataOf argsKeep) payloadKeep rfl).1 rfl

/-- Counterexample to claim C4: consumption is not atomic with validation.
At a concrete valid intent, validation succeeds while the nonce is still
unconsumed, the owner-set mutations are then issued in that state (the
first one succeeds, mutating the Safe while the nonce is still
unconsumed), a second validation of the very same intent still succeeds
against that mid-flight validator state, and the nonce only becomes
consumed at the end of the call. -/
theorem c4_window_counterexample :
    AztecRecoveryValidator.validate world0.validator ⟨31337, 100, 77⟩
      (SafeRecoveryModule.callDataOf argsKeep) (.decoded payloadKeep) =
      .ok AztecRecoveryValidator.MAGICVALUE ∧
    world0.validator.consumed 99 = false ∧
    (SafeRecoveryModule.applyRecovery false 77 31337 100 world0 argsKeep
      (.decoded payloadKeep)).1 = [.add 13 2, .setThreshold 2] ∧
    SafeRecoveryModule.moduleCall world0.safe (.add 13 2) =
      .ok ⟨[13, 10, 11, 12], 2⟩ ∧
    AztecRecoveryValidator.validate world0.validator ⟨31337, 101, 77⟩
      (SafeRecoveryModule.callDataOf argsKeep) (.decoded payloadKeep) =
      .ok AztecRecoveryValidator.MAGICVALUE ∧
    (SafeRecoveryModule.applyRecoveryTx false 77 31337 100 world0 argsKeep
      (.decoded payloadKeep)).validator.consumed 99 = true :=
  ⟨rfl, rfl, rfl, rfl, rfl, rfl⟩

/-- Claim C4 (amended): within applyRecovery the nonce is marked consumed
only after the owner-set mutations, which are computed against the
pre-consumption state; atomicity holds at transaction granularity: a
successful applyRecovery ends with the nonce consumed, and a revert leaves
the combined state exactly as it was. -/
theorem c4_consume_after_mutations
    (mp : Bool) (maddr cid ts : Nat) (w : SafeRecoveryModule.World)
    (args : SafeRecoveryModule.RecoveryArgs) (vaa : AztecRecoveryValidator.Vaa) :
    (∀ w2, (SafeRecoveryModule.applyRecovery mp maddr cid ts w args vaa).2 =
        .ok w2 → w2.validator.consumed args.nonce = true) ∧
    ((SafeRecoveryModule.applyRecovery mp maddr cid ts w args vaa).1 = [] ∨
     (SafeRecoveryModule.applyRecovery mp maddr cid ts w args vaa).1 =
       (SafeRecoveryModule.reconcile w.safe args.newOwners args.newThreshold).1) ∧
    (∀ e, (SafeRecoveryModule.applyRecovery mp maddr cid ts w args vaa).2 =
        .error e →
      SafeRecoveryModule.applyRecoveryTx mp maddr cid ts w args vaa = w) := by
  have hbody : ∀ P : Prop,
      (mp = true → P) →
      ((mp = false) →
        ∀ r, AztecRecoveryValidator.validate w.validator ⟨cid, ts, maddr⟩
          (SafeRecoveryModule.callDataOf args) vaa = r → P) → P := by
    intro P h1 h2
    by_cases hmp : mp
    · exact h1 hmp
    · exact h2 (by simpa using hmp) _ rfl
  refine ⟨fun w2 hok => ?_, ?_, fun e herr => ?_⟩
  · refine hbody _ (fun hmp => ?_) (fun hmp r hval => ?_)
    · simp [SafeRecoveryModule.applyRecovery, hmp] at hok
    · cases r with
      | error e =>
        simp [SafeRecoveryModule.applyRecovery, hmp, hval] at hok
      | ok m =>
        by_cases hm : m = AztecRecoveryValidator.MAGICVALUE
        · rcases hrec : SafeRecoveryModule.reconcile w.safe args.newOwners
            args.newThreshold with ⟨cs, r2⟩
          cases r2 with
          | error e =>
            simp [SafeRecoveryModule.applyRecovery, hmp, hval, hm, hrec] at hok
          | ok s2 =>
            by_cases hau : w.validator.authorizedModules maddr
            · simp [SafeRecoveryModule.applyRecovery, hmp, hval, hm, hrec,
                AztecRecoveryValidator.markConsumed, hau] at hok
              rw [← hok]
              simp
            · simp [SafeRecoveryModule.applyRecovery, hmp, hval, hm, hrec,
                AztecRecoveryValidator.markConsumed, hau] at hok
        · simp [SafeRecoveryModule.applyRecovery, hmp, hval, hm] at hok
  · refine hbody _ (fun hmp => ?_) (fun hmp r hval => ?_)
    · left; simp [SafeRecoveryModule.applyRecovery, hmp]
    · cases r with
      | error e =>
        left; simp [SafeRecoveryModule.applyRecovery, hmp, hval]
      | ok m =>
        by_cases hm : m = AztecRecoveryValidator.MAGICVALUE
        · right
          rcases hrec : SafeRecoveryModule.reconcile w.safe args.newOwners
            args.newThreshold with ⟨cs, r2⟩
          cases r2 with
          | error e =>
            simp [SafeRecoveryModule.applyRecovery, hmp, hval, hm, hrec]
          | ok s2 =>
            cases hmc : AztecRecoveryValidator.markConsumed w.validator maddr
                args.nonce with
            | error e =>
              simp [SafeRecoveryModule.applyRecovery, hmp, hval, hm, hrec, hmc]
            | ok v2 =>
              simp [SafeRecoveryModule.applyRecovery, hmp, hval, hm, hrec, hmc]
        · left; simp [SafeRecoveryModule.applyRecovery, hmp, hval, hm]
  · unfold SafeRecoveryModule.applyRecoveryTx
    rw [herr]

/-- Witness for C4 (amended) at the concrete successful recovery. -/
theorem c4_consume_after_mutations_witness :
    (SafeRecoveryModule.applyRecoveryTx false 77 31337 100 world0 argsKeep
      (.decoded payloadKeep)).validator.consumed 99 = true :=
  (c4_consume_after_mutations false 77 31337 100 world0 argsKeep
    (.decoded payloadKeep)).1
    (SafeRecoveryModule.applyRecoveryTx false 77 31337 100 world0 argsKeep
      (.decoded payloadKeep)) rfl

/-- Claim C5: a failing sub-call anywhere in the sequence makes
applyRecovery revert, and the reverted transaction leaves the Safe owner
set, its threshold and the validator consumed-nonce state exactly as
before; a reconciliation failure is propagated, never swallowed.  At the
concrete input of the C1 scenario the second removal fails after the add
and the first removal already succeeded transiently, and the
post-transaction state is exactly the initial one. -/
theorem c5_atomic_rollback :
    (∀ (mp : Bool) (maddr cid ts : Nat) (w : SafeRecoveryModule.World)
       (args : SafeRecoveryModule.RecoveryArgs) (vaa : AztecRecoveryValidator.Vaa)
       (e : SafeRecoveryModule.Err),
       (SafeRecoveryModule.applyRecovery mp maddr cid ts w args vaa).2 = .error e →
       SafeRecoveryModule.applyRecoveryTx mp maddr cid ts w args vaa = w) ∧
    (∀ (maddr cid ts : Nat) (w : SafeRecoveryModule.World)
       (args : SafeRecoveryModule.RecoveryArgs) (vaa : AztecRecoveryValidator.Vaa)
       (e : SafeRecoveryModule.Err),
       AztecRecoveryValidator.validate w.validator ⟨cid, ts, maddr⟩
         (SafeRecoveryModule.callDataOf args) vaa =
         .ok AztecRecoveryValidator.MAGICVALUE →
       (SafeRecoveryModule.reconcile w.safe args.newOwners args.newThreshold).2 =
         .error e →
       (SafeRecoveryModule.applyRecovery false maddr cid ts w args vaa).2 =
         .error e) ∧
    (SafeRecoveryModule.applyRecovery false 77 31337 100 world0 argsShrink
      (.decoded payloadShrink)).2 = .error .SafeCallFailed ∧
    SafeRecoveryModule.execCalls world0.safe [.add 13 2, .remove 10 11 2] =
      .ok ⟨[13, 10, 12], 2⟩ ∧
    SafeRecoveryModule.applyRecoveryTx false 77 31337 100 world0 argsShrink
      (.decoded payloadShrink) = world0 := by
  refine ⟨fun mp maddr cid ts w args vaa e herr => ?_,
    fun maddr cid ts w args vaa e hval hrec => ?_, rfl, rfl, rfl⟩
  · unfold SafeRecoveryModule.applyRecoveryTx
    rw [herr]
  · rcases hr : SafeRecoveryModule.reconcile w.safe args.newOwners
      args.newThreshold with ⟨cs, r2⟩
    rw [hr] at hrec
    simp only at hrec
    subst hrec
    simp [SafeRecoveryModule.applyRecovery, hval, hr]

/-- Witness for C5 at the rolled-back concrete run. -/
theorem c5_atomic_rollback_witness :
    SafeRecoveryModule.applyRecoveryTx false 77 31337 100 world0 argsShrink
      (.decoded payloadShrink) = world0 :=
  c5_atomic_rollback.1 false 77 31337 100 world0 argsShrink
    (.decoded payloadShrink) .SafeCallFailed rfl

/-- Finishing a key clears its in-flight mark whatever the outcome was. -/
theorem finish_inflight_self (st : Relayer.DedupState) (now key : Nat)
    (success : Bool) :
    (Relayer.finishProcessingVAA st now key success).inflight key = false := by
  simp only [Relayer.finishProcessingVAA]
  split <;> simp

/-- A completion reported as failed never creates a success record: any
record present afterwards was already there. -/
theorem finish_failure_no_record (st : Relayer.DedupState) (now key k ts : Nat)
    (h : (Relayer.finishProcessingVAA st now key false).processed k = some ts) :
    st.processed k = some ts := by
  have h1 : (Relayer.finishProcessingVAA st now key false).processed k =
      match st.processed k with
      | some ts0 => if ts0 < now - st.ttl then none else some ts0
      | none => none := rfl
  rw [h1] at h
  rcases h2 : st.processed k with - | ts0 <;> rw [h2] at h
  · split at h
    · rename_i j heq
      exact absurd heq (by simp)
    · exact absurd h (by simp)
  · split at h
    · rename_i j heq
      injection heq with hj
      subst hj
      split at h
      · exact absurd h (by simp)
      · exact h
    · rename_i heq
      exact absurd heq (by simp)

/-- The admission check leaves an absent success record absent. -/
theorem begin_processed_none (st : Relayer.DedupState) (now key : Nat)
    (h : st.processed key = none) :
    ((Relayer.beginProcessingVAA st now key).2).processed key = none := by
  simp only [Relayer.beginProcessingVAA, h, Relayer.tryMarkInflight]
  split <;> simp [h]

/-- A key with no fresh success record and no in-flight mark is admitted. -/
theorem begin_admits_of_clear (st : Relayer.DedupState) (now key : Nat)
    (hp : st.processed key = none) (hin : st.inflight key = false) :
    (Relayer.beginProcessingVAA st now key).1 = true := by
  simp [Relayer.beginProcessingVAA, hp, Relayer.tryMarkInflight, hin]

/-- An in-flight key is never admitted. -/
theorem begin_false_of_inflight (st : Relayer.DedupState) (now key : Nat)
    (hin : st.inflight key = true) :
    (Relayer.beginProcessingVAA st now key).1 = false := by
  rcases hp : st.processed key with - | ts <;>
    simp only [Relayer.beginProcessingVAA, hp, Relayer.tryMarkInflight]
  · simp [hin]
  · split
    · rfl
    · simp [hin]

/-- An admission marks the key in flight: before it the key was not in
flight, afterwards it is, and the admission deleted any (stale) success
record of the key. -/
theorem begin_true_marks (st : Relayer.DedupState) (now key : Nat)
    (st1 : Relayer.DedupState)
    (h : Relayer.beginProcessingVAA st now key = (true, st1)) :
    st.inflight key = false ∧ st1.inflight key = true ∧
      st1.processed key = none := by
  rcases hp : st.processed key with - | ts <;>
    simp only [Relayer.beginProcessingVAA, hp, Relayer.tryMarkInflight] at h
  · by_cases hin : st.inflight key
    · simp [hin] at h
    · simp only [Bool.not_eq_true] at hin
      rw [if_neg (by simp [hin]), Prod.mk.injEq] at h
      rcases h with ⟨-, h1⟩
      exact ⟨hin, by rw [← h1]; simp, by rw [← h1]; simpa using hp⟩
  · split at h
    · simp at h
    · by_cases hin : st.inflight key
      · simp [hin] at h
      · simp only [Bool.not_eq_true] at hin
        rw [if_neg (by simp [hin]), Prod.mk.injEq] at h
        rcases h with ⟨-, h1⟩
        exact ⟨hin, by rw [← h1]; simp, by rw [← h1]; simp⟩

/-- Claim C6: the dedup gate admits a key exactly when it is not in flight
and has no recorded successful completion younger than the TTL; a failed
completion adds no success record for any key, so the same key is admitted
again after a failure; and a key can be held in flight by at most one
worker at a time — an admitted key is not admitted again before its finish.
The check-and-mark is one operation on the mutex-guarded state. -/
theorem c6_dedup_gate (st : Relayer.DedupState) (now now2 now3 key : Nat) :
    ((Relayer.beginProcessingVAA st now key).1 = true ↔
       st.inflight key = false ∧
       ∀ ts, st.processed key = some ts → st.ttl ≤ now - ts) ∧
    (∀ k ts, (Relayer.finishProcessingVAA st now key false).processed k =
        some ts → st.processed k = some ts) ∧
    (st.processed key = none →
       (Relayer.beginProcessingVAA
         (Relayer.finishProcessingVAA
           (Relayer.beginProcessingVAA st now key).2 now2 key false)
         now3 key).1 = true) ∧
    (∀ st1, Relayer.beginProcessingVAA st now key = (true, st1) →
       st.inflight key = false ∧ st1.inflight key = true ∧
       (Relayer.beginProcessingVAA st1 now2 key).1 = false) := by
  refine ⟨?_, fun k ts hfin => finish_failure_no_record st now key k ts hfin,
    fun hnone => ?_, fun st1 hbeg => ?_⟩
  · cases hp : st.processed key with
    | none =>
      by_cases hin : st.inflight key <;>
        simp [Relayer.beginProcessingVAA, Relayer.tryMarkInflight, hp, hin]
    | some ts =>
      by_cases hfresh : now - ts < st.ttl
      · simp only [Relayer.beginProcessingVAA, hp, if_pos hfresh]
        constructor
        · intro h; exact absurd h (by simp)
        · rintro ⟨-, h⟩
          exact absurd (h ts rfl) (by omega)
      · by_cases hin : st.inflight key <;>
          simp [Relayer.beginProcessingVAA, Relayer.tryMarkInflight, hp,
            if_neg hfresh, hin] <;> omega
  · have h1 : ((Relayer.beginProcessingVAA st now key).2).processed key = none :=
      begin_processed_none st now key hnone
    have h2 : (Relayer.finishProcessingVAA
        (Relayer.beginProcessingVAA st now key).2 now2 key false).inflight key =
        false := finish_inflight_self _ now2 key false
    have h3 : (Relayer.finishProcessingVAA
        (Relayer.beginProcessingVAA st now key).2 now2 key false).processed key =
        none := by
      rcases h : (Relayer.finishProcessingVAA
          (Relayer.beginProcessingVAA st now key).2 now2 key false).processed key
        with - | ts
      · rfl
      · have := finish_failure_no_record _ now2 key key ts h
        rw [h1] at this
        cases this
    exact begin_admits_of_clear _ now3 key h3 h2
  · obtain ⟨ha, hb, hc⟩ := begin_true_marks st now key st1 hbeg
    refine ⟨ha, hb, ?_⟩
    exact begin_false_of_inflight st1 now2 key hb

/-- Witness for C6: a fresh key is admitted again after a failed attempt. -/
theorem c6_dedup_gate_witness :
    (Relayer.beginProcessingVAA
      (Relayer.finishProcessingVAA
        (Relayer.beginProcessingVAA ⟨fun _ => false, fun _ => none, 900⟩ 100 5).2
        110 5 false)
      120 5).1 = true :=
  (c6_dedup_gate ⟨fun _ => false, fun _ => none, 900⟩ 100 110 120 5).2.2.1 rfl

/-- Counterexample to claim C8: the fee bid is the freshly fetched gas
price suggestion (bumped 20 percent from attempt 2 on), so when the
suggestion drops from 100 to 50 after the first nonce conflict, attempt 2
bids 60 — lower than attempt 1's bid of 100 — and attempt 3 repeats the
bid 60: the fee bid does decrease across retries. -/
theorem c8_fee_bid_counterexample :
    (Relayer.sendVerifyTransaction envsFeeDrop).1 =
      [(0, 7, 100), (1, 8, 60), (2, 9, 60)] ∧
    (envsFeeDrop 0).sendResult = .nonceConflict ∧
    60 < 100 :=
  ⟨rfl, rfl, by decide⟩

/-- Claim C8 (amended): on nonce conflicts every attempt re-fetches the
counter (the maximum of the confirmed and pending counters, read before
signing) and bids the freshly fetched suggested price, bumped by 20 percent
from attempt 2 on; attempt 2's bid is strictly higher than attempt 1's
whenever the fresh suggestion did not drop (and is at least 5); later
retries do not decrease the bid as long as the suggestion does not drop;
after the fixed bound of 3 attempts the submission returns the hard
failure. -/
theorem c8_retry_amended (envs : Nat → Relayer.AttemptEnv)
    (c0 p0 s0 c1 p1 s1 c2 p2 s2 : Nat)
    (h0 : envs 0 = ⟨some c0, some p0, some s0, .nonceConflict⟩)
    (h1 : envs 1 = ⟨some c1, some p1, some s1, .nonceConflict⟩)
    (h2 : envs 2 = ⟨some c2, some p2, some s2, .nonceConflict⟩) :
    Relayer.sendVerifyTransaction envs =
      ([(0, max c0 p0, s0), (1, max c1 p1, s1 + s1 / 5),
        (2, max c2 p2, s2 + s2 / 5)], .retriesExhausted) ∧
    (s0 ≤ s1 → 5 ≤ s1 → s0 < s1 + s1 / 5) ∧
    (s1 ≤ s2 → s1 + s1 / 5 ≤ s2 + s2 / 5) := by
  refine ⟨?_, fun hle h5 => ?_, fun hle => ?_⟩
  · have hmax : ∀ c p : Nat, (if c < p then p else c) = max c p := by
      intro c p; split <;> omega
    simp only [Relayer.sendVerifyTransaction, Relayer.maxRetries, Relayer.svtGo,
      h0, h1, h2, Relayer.getFreshNonce, hmax]
    norm_num
  · have : 1 ≤ s1 / 5 := by omega
    omega
  · have : s1 / 5 ≤ s2 / 5 := Nat.div_le_div_right hle
    omega

/-- Witness for C8 (amended) at a constant all-conflict schedule. -/
theorem c8_retry_amended_witness :
    Relayer.sendVerifyTransaction envsAllConflict =
      ([(0, 3, 10), (1, 3, 12), (2, 3, 12)], .retriesExhausted) :=
  (c8_retry_amended envsAllConflict 2 3 10 2 3 10 2 3 10 rfl rfl rfl).1

/-- Every byte of a natural is below 256. -/
theorem byteAt_lt (u j : Nat) : byteAt u j < 256 :=
  Nat.mod_lt _ (by norm_num)

/-- Or-ing a value shifted past the range of the accumulator is addition. -/
theorem lor_shiftLeft_eq_add (a b k : Nat) (ha : a < 2 ^ k) :
    a ||| (b <<< k) = a + b * 2 ^ k := by
  apply Nat.eq_of_testBit_eq
  intro i
  rw [Nat.testBit_lor, Nat.testBit_shiftLeft]
  have hsum : a + b * 2 ^ k = 2 ^ k * b + a := by ring
  rw [hsum, Nat.testBit_mul_pow_two_add b ha i]
  by_cases hik : i < k
  · simp [hik, Nat.not_le.mpr hik]
  · have hk : k ≤ i := Nat.le_of_not_lt hik
    have ha2 : a.testBit i = false :=
      Nat.testBit_lt_two_pow
        (lt_of_lt_of_le ha (Nat.pow_le_pow_right (by norm_num) hk))
    simp [hik, hk, ha2]

/-- A sum of byte-sized coefficients over n byte positions stays below
2^(8n). -/
theorem bytesSum_lt (f : Nat → Nat) (n : Nat) (hf : ∀ i < n, f i < 256) :
    bytesSum f n < 2 ^ (8 * n) := by
  induction n with
  | zero => simp [bytesSum]
  | succ n ih =>
    have h1 : bytesSum f n < 2 ^ (8 * n) := ih (fun i hi => hf i (by omega))
    have h2 : f n ≤ 255 := by have := hf n (by omega); omega
    have h3 : (2:Nat) ^ (8 * (n + 1)) = 256 * 2 ^ (8 * n) := by
      rw [show 8 * (n + 1) = 8 + 8 * n by ring, pow_add]
      norm_num
    have h4 : f n * 2 ^ (8 * n) ≤ 255 * 2 ^ (8 * n) :=
      Nat.mul_le_mul_right _ h2
    have h5 : bytesSum f (n + 1) = bytesSum f n + f n * 2 ^ (8 * n) := rfl
    omega

/-- The or-accumulating loop over byte-sized values, as both address
extractors and the byte-reversal loop use it, computes the byte sum. -/
theorem lorFold_eq_bytesSum (f : Nat → Nat) (n : Nat) (hf : ∀ i < n, f i < 256) :
    (List.range n).foldl (fun a i => a ||| (f i <<< (8 * i))) 0 = bytesSum f n := by
  induction n with
  | zero => rfl
  | succ n ih =>
    rw [List.range_succ, List.foldl_append]
    simp only [List.foldl_cons, List.foldl_nil]
    rw [ih (fun i hi => hf i (by omega)),
      lor_shiftLeft_eq_add _ _ _ (bytesSum_lt f n (fun i hi => hf i (by omega)))]
    rfl

/-- Adding a multiple of 2^(8k) does not disturb the bytes below k. -/
theorem byteAt_add_high (x c k j : Nat) (hj : j < k) :
    byteAt (x + c * 2 ^ (8 * k)) j = byteAt x j := by
  unfold byteAt
  have e1 : x + c * 2 ^ (8 * k) =
      x + c * 2 ^ (8 * (k - j - 1)) * 256 * 2 ^ (8 * j) := by
    have e : 8 * k = 8 * (k - j - 1) + 8 + 8 * j := by omega
    rw [e, pow_add, pow_add]
    ring
  rw [e1, show x + c * 2 ^ (8 * (k - j - 1)) * 256 * 2 ^ (8 * j) =
      x + (c * 2 ^ (8 * (k - j - 1)) * 256) * 2 ^ (8 * j) by ring,
    Nat.add_mul_div_right _ _ (Nat.pos_pow_of_pos _ (by norm_num)),
    show x / 2 ^ (8 * j) + c * 2 ^ (8 * (k - j - 1)) * 256 =
      x / 2 ^ (8 * j) + (c * 2 ^ (8 * (k - j - 1))) * 256 by ring,
    Nat.add_mul_mod_self_right]

/-- The byte at position k of x + c * 2^(8k) is c when x fits below. -/
theorem byteAt_add_top (x c k : Nat) (hx : x < 2 ^ (8 * k)) (hc : c < 256) :
    byteAt (x + c * 2 ^ (8 * k)) k = c := by
  unfold byteAt
  rw [Nat.add_mul_div_right _ _ (Nat.pos_pow_of_pos _ (by norm_num)),
    Nat.div_eq_of_lt hx]
  simpa using Nat.mod_eq_of_lt hc

/-- Reading byte j back out of a byte sum returns the j-th coefficient. -/
theorem byteAt_bytesSum (f : Nat → Nat) (n j : Nat) (hf : ∀ i < n, f i < 256)
    (hj : j < n) : byteAt (bytesSum f n) j = f j := by
  induction n with
  | zero => omega
  | succ n ih =>
    have hfn : ∀ i < n, f i < 256 := fun i hi => hf i (by omega)
    have hlt : bytesSum f n < 2 ^ (8 * n) := bytesSum_lt f n hfn
    rcases Nat.lt_or_ge j n with hjn | hjn
    · have : byteAt (bytesSum f n + f n * 2 ^ (8 * n)) j = byteAt (bytesSum f n) j :=
        byteAt_add_high _ _ _ _ hjn
      exact this.trans (ih hfn hjn)
    · have hje : j = n := by omega
      subst hje
      exact byteAt_add_top _ _ _ hlt (hf j (by omega))

/-- Two naturals below 2^(8n) with the same n bytes are equal. -/
theorem byteAt_ext (n : Nat) : ∀ a b : Nat, a < 2 ^ (8 * n) → b < 2 ^ (8 * n) →
    (∀ j < n, byteAt a j = byteAt b j) → a = b := by
  induction n with
  | zero =>
    intro a b ha hb _
    simp only [Nat.mul_zero, pow_zero, Nat.lt_one_iff] at ha hb
    omega
  | succ n ih =>
    intro a b ha hb h
    have hpow : (2:Nat) ^ (8 * (n + 1)) = 256 * 2 ^ (8 * n) := by
      rw [show 8 * (n + 1) = 8 + 8 * n by ring, pow_add]
      norm_num
    have h0 : a % 256 = b % 256 := by
      have := h 0 (by omega)
      simpa [byteAt] using this
    have hdiv : a / 256 = b / 256 := by
      apply ih
      · exact Nat.div_lt_of_lt_mul (by omega)
      · exact Nat.div_lt_of_lt_mul (by omega)
      · intro j hj
        have hj2 := h (j + 1) (by omega)
        have e : (256:Nat) * 2 ^ (8 * j) = 2 ^ (8 * (j + 1)) := by
          rw [show (256:Nat) = 2 ^ 8 by norm_num, ← pow_add]
          congr 1
          omega
        simpa [byteAt, Nat.div_div_eq_div_mul, e] using hj2
    omega

/-- One iteration of the reverseBytes20 loop extracts byte 19-i: shifting
the 20-byte value left by 8i bits and taking the top byte. -/
theorem reverseBytes20_loop_byte (u i : Nat) (hi : i < 20) :
    ((u <<< (8 * i)) % 2 ^ 160) >>> 152 = byteAt u (19 - i) := by
  rw [Nat.shiftLeft_eq, Nat.shiftRight_eq_div_pow]
  unfold byteAt
  have e160 : (2:Nat) ^ 160 = 2 ^ (8 * i) * 2 ^ (160 - 8 * i) := by
    rw [← pow_add]
    congr 1
    omega
  have e152 : (2:Nat) ^ 152 = 2 ^ (8 * i) * 2 ^ (152 - 8 * i) := by
    rw [← pow_add]
    congr 1
    omega
  rw [e160, e152, show u * 2 ^ (8 * i) = 2 ^ (8 * i) * u by ring,
    Nat.mul_mod_mul_left,
    Nat.mul_div_mul_left _ _ (Nat.pos_pow_of_pos _ (by norm_num))]
  have e1 : (2:Nat) ^ (160 - 8 * i) = 2 ^ (152 - 8 * i) * 256 := by
    rw [show (256:Nat) = 2 ^ 8 by norm_num, ← pow_add]
    congr 1
    omega
  rw [e1, Nat.mod_mul_right_div_self, show 152 - 8 * i = 8 * (19 - i) by omega]

/-- bytesSum only depends on the first n coefficients. -/
theorem bytesSum_congr (f g : Nat → Nat) (n : Nat) (h : ∀ i < n, f i = g i) :
    bytesSum f n = bytesSum g n := by
  induction n with
  | zero => rfl
  | succ n ih =>
    show bytesSum f n + f n * 2 ^ (8 * n) = bytesSum g n + g n * 2 ^ (8 * n)
    rw [ih (fun i hi => h i (by omega)), h n (by omega)]

/-- Closed form of the byte-reversal loop: the byte sum of the input bytes
in reverse order. -/
theorem reverseBytes20_eq_bytesSum (u : Nat) :
    PayloadExtractor.reverseBytes20 u = bytesSum (fun i => byteAt u (19 - i)) 20 := by
  have hb : ∀ i < 20, ((u <<< (8 * i)) % 2 ^ 160) >>> 152 < 256 := by
    intro i hi
    rw [reverseBytes20_loop_byte u i hi]
    exact byteAt_lt u (19 - i)
  have h1 := lorFold_eq_bytesSum (fun i => ((u <<< (8 * i)) % 2 ^ 160) >>> 152) 20 hb
  have h2 := bytesSum_congr (fun i => ((u <<< (8 * i)) % 2 ^ 160) >>> 152)
    (fun i => byteAt u (19 - i)) 20 (fun i hi => reverseBytes20_loop_byte u i hi)
  exact h1.trans h2

/-- The byte-reversal loop yields a 20-byte value. -/
theorem reverseBytes20_lt (u : Nat) : PayloadExtractor.reverseBytes20 u < 2 ^ 160 := by
  rw [reverseBytes20_eq_bytesSum]
  have := bytesSum_lt (fun i => byteAt u (19 - i)) 20
    (fun i _ => byteAt_lt u (19 - i))
  simpa using this

/-- Byte j of the reversed value is byte 19-j of the input. -/
theorem byteAt_reverseBytes20 (u j : Nat) (hj : j < 20) :
    byteAt (PayloadExtractor.reverseBytes20 u) j = byteAt u (19 - j) := by
  rw [reverseBytes20_eq_bytesSum]
  exact byteAt_bytesSum _ 20 j (fun i _ => byteAt_lt u (19 - i)) hj

/-- The loop implementation of the 20-byte reversal is an involution. -/
theorem reverseBytes20_involution (u : Nat) (hu : u < 2 ^ 160) :
    PayloadExtractor.reverseBytes20 (PayloadExtractor.reverseBytes20 u) = u := by
  have hpow : (2:Nat) ^ (8 * 20) = 2 ^ 160 := by norm_num
  apply byteAt_ext 20
  · rw [hpow]
    exact reverseBytes20_lt _
  · rw [hpow]
    exact hu
  · intro j hj
    rw [byteAt_reverseBytes20 _ j hj,
      byteAt_reverseBytes20 u (19 - j) (by omega),
      show 19 - (19 - j) = j by omega]

/-- Claim C10: at the bytes20 input 0x00..01 the loop implementation
returns the reversal 0x0100..00 = 2^152, while the assembly implementation
— whose input sits left-aligned in the 256-bit assembly word although the
code reads it as if right-aligned — returns 2^56: the two implementations
are not extensionally equal.  The loop implementation itself is a genuine
involution on 20-byte values. -/
theorem c10_reverse_divergence :
    PayloadExtractor.reverseBytes20 1 = 2 ^ 152 ∧
    PayloadExtractor.reverseBytes20Assembly 1 = 2 ^ 56 ∧
    PayloadExtractor.reverseBytes20Assembly 1 ≠ PayloadExtractor.reverseBytes20 1 ∧
    (∀ u : Nat, u < 2 ^ 160 →
       PayloadExtractor.reverseBytes20 (PayloadExtractor.reverseBytes20 u) = u) :=
  ⟨by decide, by decide, by decide, reverseBytes20_involution⟩

/-- Witness for C10 at a concrete 20-byte value. -/
theorem c10_reverse_divergence_witness :
    PayloadExtractor.reverseBytes20 (PayloadExtractor.reverseBytes20 3) = 3 :=
  c10_reverse_divergence.2.2.2 3 (by norm_num)

/-- Appending a byte at the high end of a little-endian string. -/
theorem leBytesToNat_append (l : List Nat) (x : Nat) :
    leBytesToNat (l ++ [x]) = leBytesToNat l + x * 256 ^ l.length := by
  induction l with
  | nil => simp [leBytesToNat]
  | cons b bs ih =>
    have e : (b :: bs) ++ [x] = b :: (bs ++ [x]) := rfl
    rw [e]
    show b + 256 * leBytesToNat (bs ++ [x]) = _
    rw [ih]
    show _ = (b + 256 * leBytesToNat bs) + x * 256 ^ (bs.length + 1)
    ring

/-- Appending a byte at the low end of a big-endian string. -/
theorem beBytesToNat_append (l : List Nat) (x : Nat) :
    beBytesToNat (l ++ [x]) = beBytesToNat l * 256 + x := by
  unfold beBytesToNat
  rw [List.foldl_append]
  rfl

/-- Little-endian reading is big-endian reading of the reversal. -/
theorem leBytesToNat_eq_beBytesToNat_reverse (l : List Nat) :
    leBytesToNat l = beBytesToNat l.reverse := by
  induction l with
  | nil => rfl
  | cons b bs ih =>
    simp only [leBytesToNat, List.reverse_cons, beBytesToNat_append, ih]
    ring

/-- A full slice has the requested length. -/
theorem sliceBytes_length (data : List Nat) (off n : Nat)
    (h : off + n ≤ data.length) : (sliceBytes data off n).length = n := by
  simp only [sliceBytes, List.length_take, List.length_drop]
  omega

/-- Extending a slice by one byte. -/
theorem sliceBytes_succ (data : List Nat) (off n : Nat)
    (h : off + n < data.length) :
    sliceBytes data off (n + 1) = sliceBytes data off n ++ [data.getD (off + n) 0] := by
  unfold sliceBytes
  rw [List.take_succ]
  congr 1
  have hn : n < (data.drop off).length := by
    simp only [List.length_drop]
    omega
  rw [List.getElem?_eq_getElem hn]
  simp only [Option.toList_some, List.getElem_drop]
  rw [List.getD_eq_getElem data 0 (by omega)]

/-- The little-endian value of a slice is the byte sum of its bytes. -/
theorem leBytes_slice_eq_bytesSum (data : List Nat) (off : Nat) :
    ∀ n, off + n ≤ data.length →
      leBytesToNat (sliceBytes data off n) =
        bytesSum (fun i => data.getD (off + i) 0) n := by
  intro n
  induction n with
  | zero => intro _; rfl
  | succ n ih =>
    intro h
    rw [sliceBytes_succ data off n (by omega), leBytesToNat_append,
      ih (by omega), sliceBytes_length data off n (by omega)]
    show _ = bytesSum _ n + _ * 2 ^ (8 * n)
    rw [show (256:Nat) = 2 ^ 8 by norm_num, ← pow_mul]

/-- Every byte read out of a byte string (default 0) is below 256. -/
theorem getD_lt (data : List Nat) (hb : ∀ b ∈ data, b < 256) (k : Nat) :
    data.getD k 0 < 256 := by
  by_cases h : k < data.length
  · rw [List.getD_eq_getElem data 0 h]
    exact hb _ (List.getElem_mem h)
  · rw [List.getD_eq_default data 0 (by omega)]
    norm_num

/-- The LE address extraction of SafeRecoveryModule.verify reads exactly the
20 bytes at the offset, little-endian. -/
theorem extractAddressLE_eq (data : List Nat) (off : Nat)
    (h : off + 20 ≤ data.length) (hb : ∀ b ∈ data, b < 256) :
    SafeRecoveryModule.extractAddressLE data off =
      leBytesToNat (sliceBytes data off 20) := by
  have h1 := lorFold_eq_bytesSum (fun i => data.getD (off + i) 0) 20
    (fun i _ => getD_lt data hb (off + i))
  exact h1.trans (leBytes_slice_eq_bytesSum data off 20 h).symm

/-- The chain-id extraction of SafeRecoveryModule.verify reads exactly the
3 bytes at the offset, little-endian, whenever they are in range. -/
theorem extractChainIdLE_eq (data : List Nat) (off : Nat)
    (h : off + 3 ≤ data.length) (hb : ∀ b ∈ data, b < 256) :
    SafeRecoveryModule.extractChainIdLE data off =
      leBytesToNat (sliceBytes data off 3) := by
  have hg : SafeRecoveryModule.extractChainIdLE data off =
      (List.range 3).foldl
        (fun value i => value ||| ((data.getD (off + i) 0) <<< (8 * i))) 0 := by
    show (List.range 3).foldl _ 0 = (List.range 3).foldl _ 0
    simp only [show List.range 3 = [0, 1, 2] from rfl, List.foldl_cons,
      List.foldl_nil]
    rw [if_pos (by omega), if_pos (by omega), if_pos (by omega)]
  rw [hg]
  have h1 := lorFold_eq_bytesSum (fun i => data.getD (off + i) 0) 3
    (fun i _ => getD_lt data hb (off + i))
  exact h1.trans (leBytes_slice_eq_bytesSum data off 3 h).symm

/-- Claim C7: for every payload passing the compact path's length gate, the
chain id is the little-endian value of exactly the 3 bytes at offset 52,
and the safe and candidate addresses are the byte-order reversals (the
big-endian value of the reversed bytes) of the 20 bytes at offsets 55 and
96. -/
theorem c7_compact_layout (payload : List Nat) (hlen : 116 ≤ payload.length)
    (hb : ∀ b ∈ payload, b < 256) :
    SafeRecoveryModule.verifyExtract payload =
      .ok ⟨beBytesToNat (sliceBytes payload 55 20).reverse,
           beBytesToNat (sliceBytes payload 96 20).reverse,
           leBytesToNat (sliceBytes payload 52 3)⟩ := by
  unfold SafeRecoveryModule.verifyExtract
  rw [if_neg (by omega)]
  simp only [Except.ok.injEq, SafeRecoveryModule.VerifyParsed.mk.injEq]
  refine ⟨?_, ?_, ?_⟩
  · rw [extractAddressLE_eq payload 55 (by omega) hb,
      leBytesToNat_eq_beBytesToNat_reverse]
  · rw [extractAddressLE_eq payload 96 (by omega) hb,
      leBytesToNat_eq_beBytesToNat_reverse]
  · exact extractChainIdLE_eq payload 52 (by omega) hb

/-- Witness for C7 at a concrete 116-byte payload. -/
theorem c7_compact_layout_witness :
    SafeRecoveryModule.verifyExtract payload116 =
      .ok ⟨beBytesToNat (sliceBytes payload116 55 20).reverse,
           beBytesToNat (sliceBytes payload116 96 20).reverse,
           leBytesToNat (sliceBytes payload116 52 3)⟩ :=
  c7_compact_layout payload116 (by decide) (by decide)

/-- Claim C9: every payload shorter than its layout's fixed size fails the
length gate that runs before any field is extracted — the fixed size is 75
bytes for parsePayload and 116 bytes for the compact verify path — so no
partial parsed-payload struct is ever produced; decoding is all-or-nothing
by construction of the Except result.  In particular any 10-byte payload
fails both gates. -/
theorem c9_truncated_payload (payload : List Nat) :
    (payload.length < 75 →
       PayloadExtractor.parsePayload payload = .error "Payload too short") ∧
    (payload.length < 116 →
       SafeRecoveryModule.verifyExtract payload = .error "payload too short") := by
  constructor
  · intro h
    unfold PayloadExtractor.parsePayload
    rw [if_pos h]
  · intro h
    unfold SafeRecoveryModule.verifyExtract
    rw [if_pos h]

/-- Witness for C9 at a 10-byte payload, which is below both fixed sizes. -/
theorem c9_truncated_payload_witness :
    PayloadExtractor.parsePayload (List.replicate 10 7) =
      .error "Payload too short" ∧
    SafeRecoveryModule.verifyExtract (List.replicate 10 7) =
      .error "payload too short" :=
  ⟨(c9_truncated_payload (List.replicate 10 7)).1 (by decide),
   (c9_truncated_payload (List.replicate 10 7)).2 (by decide)⟩
